import Mathlib

/-!
A verification development for the tool-resolution pipeline of the
Self-evolutional-agent repository: shallow embeddings of the keyword
extractor, the local tool matcher, the candidate scorer, candidate
discovery, the tool repository, and the bounded acquisition loop
(source files `tools_managing.py`, `tool_searching.py`, `manager.py`),
together with theorems about them.

Modelling conventions:
* Python floats are modelled exactly as rationals (`ℚ`).
* Python strings are Lean `String`s; `str.lower()` is modelled on ASCII
  (`pyLower`), which agrees with Python on ASCII and CJK text.
* The regex word classes `\w` and `\b` are modelled for ASCII and CJK
  characters (`isWordChar`), matching Python on such text.
* External collaborators (the GitHub search endpoint, README fetching,
  LLM completions, the shell installer and executor, wall-clock time and
  interactive user input) are explicit oracle parameters, mirroring the
  interface boundaries of the design document.
-/

namespace Alita

attribute [local semireducible] Rat.mul Rat.add Rat.inv Rat.sub

/-! ### Character and string primitives (Python semantics) -/

/-- ASCII letter, Python regex class `[a-zA-Z]`. -/
def isAsciiAlpha (c : Char) : Bool :=
  (decide (65 ≤ c.toNat) && decide (c.toNat ≤ 90))
    || (decide (97 ≤ c.toNat) && decide (c.toNat ≤ 122))

/-- ASCII digit `[0-9]`. -/
def isAsciiDigit (c : Char) : Bool :=
  decide (48 ≤ c.toNat) && decide (c.toNat ≤ 57)

/-- CJK unified ideograph, Python regex class `[一-鿿]`. -/
def isCJK (c : Char) : Bool :=
  decide (19968 ≤ c.toNat) && decide (c.toNat ≤ 40959)

/-- Python regex word character `\w`, modelled for ASCII and CJK text. -/
def isWordChar (c : Char) : Bool :=
  isAsciiAlpha c || isAsciiDigit c || decide (c = '_') || isCJK c

/-- Lower-case one ASCII character, leaving everything else unchanged
(model of Python `str.lower()` on ASCII and CJK text). -/
def lowerChar (c : Char) : Char :=
  if 65 ≤ c.toNat ∧ c.toNat ≤ 90 then Char.ofNat (c.toNat + 32) else c

/-- Model of Python `str.lower()`. -/
def pyLower (s : String) : String := ⟨s.data.map lowerChar⟩

/-- `leadsWith needle hay` is true when `needle` is an initial segment of
`hay` (helper for Python substring containment). -/
def leadsWith : List Char → List Char → Bool
  | [], _ => true
  | _ :: _, [] => false
  | a :: as, b :: bs => decide (a = b) && leadsWith as bs

/-- `hasSub hay needle` is true when `needle` occurs contiguously inside
`hay`: Python's `needle in hay` for strings. -/
def hasSub : List Char → List Char → Bool
  | [], needle => needle.isEmpty
  | hay@(_ :: t), needle => leadsWith needle hay || hasSub t needle

/-- Python's substring test `needle in hay`. -/
def strContains (hay needle : String) : Bool := hasSub hay.data needle.data

/-- Maximal runs of characters satisfying `p` (accumulator form; the
accumulator holds the current run reversed). -/
def runsAcc (p : Char → Bool) : List Char → List Char → List (List Char)
  | [], acc => if acc.isEmpty then [] else [acc.reverse]
  | c :: cs, acc =>
    if p c then runsAcc p cs (c :: acc)
    else if acc.isEmpty then runsAcc p cs []
    else acc.reverse :: runsAcc p cs []

/-- Maximal runs of characters satisfying `p`: `findall` for the regex
`[class]+`. -/
def charRuns (p : Char → Bool) (l : List Char) : List (List Char) :=
  runsAcc p l []

/-- Python `str.split()` (split on whitespace runs, no empty fields). -/
def splitWsStr (s : String) : List String :=
  (charRuns (fun c => !c.isWhitespace) s.data).map List.asString

/-! ### `extract_keywords` (tools_managing.py, lines 33-195) -/

/-- English stop words of `extract_keywords` (`stop_words`), transcribed
from the source (duplicates kept; only membership matters). -/
def stopWords : List String :=
  ["the", "is", "at", "which", "on", "and", "a", "an", "as", "are",
   "been", "by", "for", "from", "has", "had", "have", "in", "of",
   "or", "that", "to", "was", "will", "with", "get", "fetch", "retrieve",
   "data", "information", "using", "use", "via", "through", "tool",
   "any", "all", "can", "could", "would", "should", "may", "might",
   "must", "shall", "will", "would", "do", "does", "did", "done",
   "be", "being", "been", "am", "is", "are", "was", "were",
   "this", "that", "these", "those", "it", "its", "their", "them",
   "we", "us", "our", "you", "your", "he", "him", "his", "she", "her",
   "they", "me", "my", "i", "not", "no", "nor", "but", "only",
   "just", "very", "too", "also", "more", "most", "much", "many",
   "some", "few", "all", "any", "each", "every", "either", "neither",
   "one", "two", "first", "second", "third", "last", "next",
   "new", "old", "good", "bad", "great", "small", "large", "big",
   "high", "low", "same", "different", "such", "so", "than", "then",
   "if", "else", "when", "where", "what", "who", "why", "how",
   "because", "since", "while", "after", "before", "during",
   "about", "above", "below", "between", "into", "out", "up", "down",
   "main", "def", "self", "none", "true", "false", "try", "except",
   "import", "return", "pass", "break", "continue", "class", "function",
   "specified", "specific", "general", "generic", "common", "simple",
   "available", "current", "latest", "recent", "update", "check"]

/-- Programming-specific stop words (`programming_stop_words`). -/
def programmingStopWords : List String :=
  ["def", "import", "from", "class", "return", "if", "else", "try",
   "except", "raise", "finally", "with", "as", "pass", "break",
   "continue", "while", "for", "in", "and", "or", "not", "is",
   "none", "true", "false", "self", "__init__", "__main__", "main",
   "print", "input", "output", "file", "open", "close", "read", "write",
   "str", "int", "float", "list", "dict", "set", "tuple", "object",
   "args", "kwargs", "param", "parameter", "result", "value", "item",
   "error", "exception", "warning", "debug", "info", "log"]

/-- `all_stop_words = stop_words | programming_stop_words`. -/
def allStopWords : List String := stopWords ++ programmingStopWords

/-- Insert a space between a lowercase letter and an uppercase letter:
`re.sub(r'([a-z])([A-Z])', r'\1 \2', text)`. -/
def camelSplitChars : List Char → List Char
  | [] => []
  | [c] => [c]
  | a :: b :: rest =>
    if (decide (97 ≤ a.toNat) && decide (a.toNat ≤ 122))
        && (decide (65 ≤ b.toNat) && decide (b.toNat ≤ 90)) then
      a :: ' ' :: camelSplitChars (b :: rest)
    else a :: camelSplitChars (b :: rest)

/-- The source's text normalisation: `text.replace('_', ' ')` followed by
the camel-case split. -/
def pyTransform (text : String) : List Char :=
  camelSplitChars (text.data.map (fun c => if c = '_' then ' ' else c))

/-- `english_pattern.findall(text.lower())` where
`english_pattern = r'\b[a-zA-Z]+\b'`: maximal word-character runs of the
lowered text consisting entirely of ASCII letters. -/
def englishWords (text : String) : List String :=
  ((charRuns isWordChar ((pyTransform text).map lowerChar)).filter
    (fun r => r.all isAsciiAlpha)).map List.asString

/-- `chinese_pattern.findall(text)` where
`chinese_pattern = r'[一-鿿]+'`. -/
def chineseRuns (text : String) : List String :=
  (charRuns isCJK (pyTransform text)).map List.asString

/-- Python `str.isdigit()` for ASCII digits. -/
def pyIsDigit (w : String) : Bool := !w.data.isEmpty && w.data.all isAsciiDigit

/-- `re.match(r'[一-鿿]', word)`: the first character is CJK. -/
def startsCJK (w : String) : Bool :=
  match w.data with
  | [] => false
  | c :: _ => isCJK c

/-- The per-word filter of `extract_keywords`: drop stop words, drop
Latin words shorter than 3 characters (words starting with a CJK
character are exempt), drop all-digit words. -/
def filteredEnglishWords (text : String) : List String :=
  (englishWords text).filter fun w =>
    !(allStopWords.contains w)
      && (decide (3 ≤ w.length) || startsCJK w)
      && !(pyIsDigit w)

/-- The Chinese anchor-expansion table of `extract_keywords`: each entry
pairs trigger substrings with the keywords they inject. -/
def chineseAnchorTable : List (List String × List String) :=
  [(["天气"], ["天气", "weather", "temperature", "forecast"]),
   (["股票"], ["股票", "stock", "price", "market"]),
   (["价格"], ["价格", "price", "cost", "value"]),
   (["查询", "查看"], ["查询", "查看", "check", "query", "search"]),
   (["获取"], ["获取", "get", "fetch", "retrieve"]),
   (["北京"], ["北京", "beijing"]),
   (["上海"], ["上海", "shanghai"]),
   (["苹果"], ["苹果", "apple", "aapl"]),
   (["公司"], ["公司", "company", "corporation"])]

/-- Keywords injected by the anchors matched inside one Chinese run. -/
def chineseAdds (r : String) : List String :=
  (chineseAnchorTable.filter
    (fun e => e.1.any (fun pat => strContains r pat))).flatMap (fun e => e.2)

/-- `chinese_keywords`: every Chinese run itself plus the table-driven
expansions it triggers. -/
def chineseKeywordList (text : String) : List String :=
  (chineseRuns text).flatMap (fun r => r :: chineseAdds r)

/-- `weather_terms` of `extract_keywords`. -/
def weatherTerms : List String :=
  ["weather", "temperature", "forecast", "climate", "rain",
   "snow", "sunny", "cloudy", "wind", "humidity", "pressure"]

/-- `finance_terms` of `extract_keywords`. -/
def financeTerms : List String :=
  ["stock", "price", "market", "trading", "finance", "ticker",
   "quote", "share", "investment", "portfolio", "dividend",
   "earnings", "revenue", "profit", "loss", "nasdaq", "nyse"]

/-- `api_terms` of `extract_keywords`. -/
def apiTerms : List String :=
  ["api", "endpoint", "request", "response", "authentication",
   "token", "key", "client", "server", "rest", "graphql", "sdk"]

/-- `common_locations` of `extract_keywords`. -/
def commonLocations : List String :=
  ["beijing", "shanghai", "london", "newyork", "tokyo",
   "paris", "sydney", "toronto", "singapore", "hongkong"]

/-- `tech_companies` of `extract_keywords`. -/
def techCompanies : List String :=
  ["apple", "google", "microsoft", "amazon", "tesla",
   "nvidia", "meta", "netflix", "intel", "amd"]

/-- `domain_keywords`: domain terms found as substrings of the lowered
text (the three term sets are additionally guarded against stop words;
location and company names are not). -/
def domainKeywordList (text : String) : List String :=
  let textLower : String := List.asString ((pyTransform text).map lowerChar)
  ((weatherTerms ++ financeTerms ++ apiTerms).filter
    (fun t => strContains textLower t && !(allStopWords.contains t)))
    ++ (commonLocations.filter (fun t => strContains textLower t))
    ++ (techCompanies.filter (fun t => strContains textLower t))

/-- The final low-quality removal set of `extract_keywords`. -/
def finalExcluded : List String :=
  ["any", "all", "main", "self", "none", "retrieves", "fetches"]

/-- `extract_keywords(text)` (tools_managing.py, lines 33-195): the union
of the filtered Latin words, the domain keywords, and the Chinese
keywords, minus the final removal set. -/
def extract_keywords (text : String) : Finset String :=
  ((filteredEnglishWords text ++ domainKeywordList text
      ++ chineseKeywordList text).filter
    (fun w => !(finalExcluded.contains w))).toFinset

/-! ### `search_tool_by_keywords` (tools_managing.py, lines 365-493) -/

/-- A persisted tool record, the JSON document written by
`save_tool_as_json` (fields exactly as in the source). `created_at` is
the integral clock reading supplied by the caller (wall-clock time is an
external input). -/
structure ToolData where
  id : String
  tool_description : String
  keywords : String
  install_dependencies : List String
  python_code : String
  created_at : ℕ
  original_name : String
deriving DecidableEq

/-- The `keyword_expansions` table of `search_tool_by_keywords`. -/
def keywordExpansions (k : String) : List String :=
  if k = "weather" then ["temperature", "forecast", "climate"]
  else if k = "stock" then ["price", "market", "finance", "trading"]
  else if k = "download" then ["fetch", "get", "retrieve"]
  else if k = "beijing" then ["北京", "weather"]
  else if k = "nvidia" then ["nvda", "stock", "price"]
  else if k = "apple" then ["aapl", "stock", "price"]
  else if k = "financial" then ["finance", "earnings", "revenue"]
  else []

/-- Expand a search-keyword set with the common variations table. -/
def expandKeywords (s : Finset String) : Finset String :=
  s ∪ s.biUnion (fun k => (keywordExpansions k).toFinset)

/-- The stored keyword string of a tool, split back into a set
(`set(tool_data.get('keywords', '').split())`). -/
def toolKeywordSet (t : ToolData) : Finset String :=
  (splitWsStr t.keywords).toFinset

/-- The combined match score `total_score` that `search_tool_by_keywords`
computes for one stored tool record: weighted keyword intersection,
description containment, name containment, partial token matching, the
domain boost, and the relevance bonus driven by the raw query string. -/
def matchScore (required_tool : String) (task_keywords : Finset String)
    (t : ToolData) : ℚ :=
  let searchKws := extract_keywords required_tool ∪ task_keywords
  let expanded := expandKeywords searchKws
  let toolKws := toolKeywordSet t
  let descLower := pyLower t.tool_description
  let nameLower := pyLower t.original_name
  let n : ℚ := (expanded.card : ℚ)
  let keywordScore : ℚ :=
    if expanded = ∅ then 0 else ((expanded ∩ toolKws).card : ℚ) / n
  let descScore : ℚ :=
    if expanded = ∅ then 0
    else ((expanded.filter (fun kw => strContains descLower kw = true)).card : ℚ) / n
  let nameScore : ℚ :=
    if expanded = ∅ then 0
    else ((expanded.filter (fun kw => strContains nameLower kw = true)).card : ℚ) / n
  let pairMatch : String → Bool := fun sk =>
    decide (∃ tk ∈ toolKws, (decide (4 ≤ sk.length) && decide (4 ≤ tk.length)
      && (strContains tk sk || strContains sk tk)) = true)
  let pairScore : ℚ :=
    if expanded = ∅ then 0
    else (((expanded.filter (fun sk => pairMatch sk = true)).card : ℚ) * (1 / 2)) / n
  let domainBoost : ℚ :=
    if "weather" ∈ expanded ∧ "weather" ∈ toolKws then 3 / 10
    else if "stock" ∈ expanded
        ∧ ("stock" ∈ toolKws ∨ "finance" ∈ toolKws ∨ "market" ∈ toolKws) then 3 / 10
    else 0
  let reqLower := pyLower required_tool
  let bonus : ℚ :=
    if (strContains reqLower "weather" || strContains reqLower "temperature") = true
        ∧ "weather" ∈ toolKws then 3 / 10
    else if (strContains reqLower "stock" || strContains reqLower "price"
          || strContains reqLower "finance") = true
        ∧ ("stock" ∈ toolKws ∨ "finance" ∈ toolKws) then 3 / 10
    else 0
  (2 / 5) * keywordScore + (1 / 5) * descScore + (1 / 10) * nameScore
    + (1 / 5) * pairScore + domainBoost + bonus

/-- One step of the best-match fold: keep the incumbent unless the new
tool scores strictly higher (`total_score > best_score`). -/
def searchFoldStep (required_tool : String) (task_keywords : Finset String)
    (acc : Option ToolData × ℚ) (t : ToolData) : Option ToolData × ℚ :=
  if acc.2 < matchScore required_tool task_keywords t then
    (some t, matchScore required_tool task_keywords t)
  else acc

/-- `search_tool_by_keywords(required_tool, task_keywords)` over a store
of tool records (the JSON files of the `tools` directory, in directory
order). Returns the best-scoring record paired with its `match_score`
when that score clears the 0.2 threshold, else `none`. -/
def search_tool_by_keywords (store : List ToolData) (required_tool : String)
    (task_keywords : Finset String) : Option (ToolData × ℚ) :=
  let best := store.foldl (searchFoldStep required_tool task_keywords) (none, 0)
  match best.1 with
  | some t => if 1 / 5 ≤ best.2 then some (t, best.2) else none
  | none => none

/-! ### Properties of the local tool matcher -/

/-- Specification of the best-match fold: either no candidate beat the
incumbent score (and every scanned tool scores at most it), or the fold
ends on some scanned tool holding the running maximum. -/
lemma searchFold_spec (req : String) (tk : Finset String) :
    ∀ (l : List ToolData) (b : Option ToolData) (s : ℚ),
      (l.foldl (searchFoldStep req tk) (b, s) = (b, s)
          ∧ ∀ t ∈ l, matchScore req tk t ≤ s)
        ∨ (∃ t ∈ l,
            l.foldl (searchFoldStep req tk) (b, s) = (some t, matchScore req tk t)
              ∧ s < matchScore req tk t
              ∧ ∀ u ∈ l, matchScore req tk u ≤ matchScore req tk t) := by
  intro l
  induction l with
  | nil => exact fun b s => Or.inl ⟨rfl, by simp⟩
  | cons t rest ih =>
    intro b s
    by_cases h : s < matchScore req tk t
    · have hstep : searchFoldStep req tk (b, s) t = (some t, matchScore req tk t) := by
        simp [searchFoldStep, h]
      rcases ih (some t) (matchScore req tk t) with ⟨heq, hall⟩ | ⟨u, hu, heq, hlt, hall⟩
      · refine Or.inr ⟨t, List.mem_cons_self t rest, ?_, h, ?_⟩
        · simpa [hstep] using heq
        · intro v hv
          rcases List.mem_cons.mp hv with rfl | hv
          · exact le_refl _
          · exact hall v hv
      · refine Or.inr ⟨u, List.mem_cons_of_mem t hu, ?_, lt_trans h hlt, ?_⟩
        · simpa [hstep] using heq
        · intro v hv
          rcases List.mem_cons.mp hv with rfl | hv
          · exact le_of_lt hlt
          · exact hall v hv
    · have hle : matchScore req tk t ≤ s := le_of_not_lt h
      have hstep : searchFoldStep req tk (b, s) t = (b, s) := by
        simp [searchFoldStep, h]
      rcases ih b s with ⟨heq, hall⟩ | ⟨u, hu, heq, hlt, hall⟩
      · refine Or.inl ⟨by simpa [hstep] using heq, ?_⟩
        intro v hv
        rcases List.mem_cons.mp hv with rfl | hv
        · exact hle
        · exact hall v hv
      · refine Or.inr ⟨u, List.mem_cons_of_mem t hu, by simpa [hstep] using heq, hlt, ?_⟩
        intro v hv
        rcases List.mem_cons.mp hv with rfl | hv
        · exact le_trans hle (le_of_lt hlt)
        · exact hall v hv

/-- C2: `search_tool_by_keywords` never raises (it is a total function);
it returns `none` exactly when there is no stored tool whose combined
score clears the 0.2 threshold, and whenever it returns a tool, that
tool is a stored record carrying its own combined score, that score is
at least 0.2, and no stored tool scores higher (the first
maximum-scoring tool wins). -/
theorem search_tool_threshold (store : List ToolData) (required_tool : String)
    (task_keywords : Finset String) :
    (search_tool_by_keywords store required_tool task_keywords = none →
        ∀ t ∈ store, matchScore required_tool task_keywords t < 1 / 5)
      ∧ ∀ t s, search_tool_by_keywords store required_tool task_keywords = some (t, s) →
          t ∈ store ∧ s = matchScore required_tool task_keywords t ∧ 1 / 5 ≤ s
            ∧ ∀ u ∈ store, matchScore required_tool task_keywords u ≤ s := by
  rcases searchFold_spec required_tool task_keywords store none 0 with
    ⟨heq, hall⟩ | ⟨t, ht, heq, hpos, hall⟩
  · have hres : search_tool_by_keywords store required_tool task_keywords = none := by
      simp only [search_tool_by_keywords, heq]
    constructor
    · intro _ t ht
      calc matchScore required_tool task_keywords t ≤ 0 := hall t ht
        _ < 1 / 5 := by norm_num
    · intro t s hsome
      rw [hres] at hsome
      cases hsome
  · by_cases hth : (1 : ℚ) / 5 ≤ matchScore required_tool task_keywords t
    · have hres : search_tool_by_keywords store required_tool task_keywords
          = some (t, matchScore required_tool task_keywords t) := by
        simp only [search_tool_by_keywords, heq, if_pos hth]
      constructor
      · intro hnone
        rw [hres] at hnone
        cases hnone
      · intro t' s' hsome
        rw [hres] at hsome
        obtain ⟨rfl, rfl⟩ := Prod.mk.injEq .. ▸ Option.some.injEq .. ▸ hsome
        exact ⟨ht, rfl, hth, hall⟩
    · have hres : search_tool_by_keywords store required_tool task_keywords = none := by
        simp only [search_tool_by_keywords, heq, if_neg hth]
      constructor
      · intro _ u hu
        exact lt_of_le_of_lt (hall u hu) (lt_of_not_le hth)
      · intro t' s' hsome
        rw [hres] at hsome
        cases hsome

/-- A concrete one-tool store: a record whose keyword string survives
extraction and expansion unchanged. -/
def ghTool : ToolData := ⟨"gh", "", "github", [], "", 0, ""⟩

/-- Witness for C2 at a concrete store and query: the matcher returns
the stored tool with its score 1/2, which is at least the threshold and
maximal. -/
theorem search_tool_threshold_inst :
    ghTool ∈ [ghTool] ∧ (1 : ℚ) / 2 = matchScore "github" ∅ ghTool
      ∧ (1 : ℚ) / 5 ≤ 1 / 2
      ∧ ∀ u ∈ [ghTool], matchScore "github" ∅ u ≤ 1 / 2 :=
  (search_tool_threshold [ghTool] "github" ∅).2 ghTool (1 / 2) (by decide)

/-- A stored record whose keyword string is a single stop word: keyword
extraction of the query "data" yields the empty set. -/
def dataTool : ToolData := ⟨"dt", "", "data", [], "", 0, ""⟩

/-- C3 counterexample: for the stored record whose keyword string is
"data", running the matcher with the query equal to that exact stored
keyword string yields a combined score of 0, not at least 0.4 (and the
lookup consequently misses). -/
theorem keyword_saturation_cex :
    matchScore dataTool.keywords ∅ dataTool < 2 / 5
      ∧ matchScore dataTool.keywords ∅ dataTool = 0
      ∧ search_tool_by_keywords [dataTool] dataTool.keywords ∅ = none := by
  refine ⟨by decide, by decide, by decide⟩

/-- Nonnegativity of a quotient of two natural-number casts. -/
lemma natRatio_nonneg (a b : ℕ) : (0 : ℚ) ≤ (a : ℚ) / (b : ℚ) :=
  div_nonneg (Nat.cast_nonneg a) (Nat.cast_nonneg b)

/-- C3 (amended): for every stored tool record whose keyword string,
after keyword extraction and expansion, reproduces exactly the tool's
own (nonempty) stored keyword set, the combined score on the query equal
to that keyword string is at least 0.4: the keyword-intersection
component saturates at its 0.4 weight and all other components are
nonnegative. (The unamended claim fails when extraction drops part of
the keyword string, see the counterexample.) -/
theorem keyword_saturation_amended (t : ToolData)
    (h1 : expandKeywords (extract_keywords t.keywords) = toolKeywordSet t)
    (h2 : toolKeywordSet t ≠ ∅) :
    2 / 5 ≤ matchScore t.keywords ∅ t := by
  have hcard : (0 : ℚ) < ((toolKeywordSet t).card : ℚ) := by
    have : 0 < (toolKeywordSet t).card :=
      Finset.card_pos.mpr (Finset.nonempty_iff_ne_empty.mpr h2)
    exact_mod_cast this
  simp only [matchScore, Finset.union_empty, h1]
  rw [if_neg h2, if_neg h2, if_neg h2, if_neg h2, Finset.inter_self,
    div_self (ne_of_gt hcard)]
  have hd : (0 : ℚ) ≤ ((Finset.filter
      (fun kw => strContains (pyLower t.tool_description) kw = true)
      (toolKeywordSet t)).card : ℚ) / ((toolKeywordSet t).card : ℚ) :=
    natRatio_nonneg _ _
  have hn : (0 : ℚ) ≤ ((Finset.filter
      (fun kw => strContains (pyLower t.original_name) kw = true)
      (toolKeywordSet t)).card : ℚ) / ((toolKeywordSet t).card : ℚ) :=
    natRatio_nonneg _ _
  have hp : (0 : ℚ) ≤ (((Finset.filter
      (fun sk => (decide (∃ tk ∈ toolKeywordSet t,
        (decide (4 ≤ sk.length) && decide (4 ≤ tk.length)
          && (strContains tk sk || strContains sk tk)) = true)) = true)
      (toolKeywordSet t)).card : ℚ) * (1 / 2)) / ((toolKeywordSet t).card : ℚ) :=
    div_nonneg (mul_nonneg (Nat.cast_nonneg _) (by norm_num)) (Nat.cast_nonneg _)
  have hb1 : (0 : ℚ) ≤ (if "weather" ∈ toolKeywordSet t ∧ "weather" ∈ toolKeywordSet t
      then (3 : ℚ) / 10
      else if "stock" ∈ toolKeywordSet t ∧ ("stock" ∈ toolKeywordSet t
          ∨ "finance" ∈ toolKeywordSet t ∨ "market" ∈ toolKeywordSet t)
        then 3 / 10 else 0) := by
    split_ifs <;> norm_num
  have hb2 : (0 : ℚ) ≤ (if (strContains (pyLower t.keywords) "weather"
        || strContains (pyLower t.keywords) "temperature") = true
        ∧ "weather" ∈ toolKeywordSet t
      then (3 : ℚ) / 10
      else if (strContains (pyLower t.keywords) "stock"
            || strContains (pyLower t.keywords) "price"
            || strContains (pyLower t.keywords) "finance") = true
          ∧ ("stock" ∈ toolKeywordSet t ∨ "finance" ∈ toolKeywordSet t)
        then 3 / 10 else 0) := by
    split_ifs <;> norm_num
  linarith

/-- Witness for C3 (amended) at the concrete record whose keyword string
is "github": extraction and expansion reproduce the stored keyword set,
so the combined score reaches 0.4. -/
theorem keyword_saturation_amended_inst :
    2 / 5 ≤ matchScore ghTool.keywords ∅ ghTool :=
  keyword_saturation_amended ghTool (by decide) (by decide)

/-! ### `score_tool` (tool_searching.py, lines 234-362) -/

/-- A repository record returned by the external search endpoint, with
the fields `score_tool` and `find_best_tools_with_exclusion` consume.
`description` and `language` may be absent (`None`). `daysOld` is the
parsed age in days of `updated_at` relative to the current wall clock:
`none` models a missing or unparsable timestamp (both score 0 in the
source); parsing and the clock are external inputs. -/
structure Repo where
  id : ℕ
  name : String
  full_name : String
  description : Option String
  language : Option String
  stargazers_count : ℕ
  url : String
  html_url : String
  daysOld : Option ℕ
deriving DecidableEq

/-- The documentation record produced by `fetch_repository_readme`:
installation and usage text, with sentinel strings when not found. -/
structure Docs where
  installation : String
  usage : String
deriving DecidableEq

/-- The effective language of a repository:
`repo.get('language', '')` lower-cased, empty when absent. -/
def repoLanguage (repo : Repo) : String :=
  pyLower (repo.language.getD "")

/-- Star score: `min(20, stargazers_count / 5000 * 20)`. -/
def starScore (repo : Repo) : ℚ :=
  min 20 ((repo.stargazers_count : ℚ) / 5000 * 20)

/-- Documentation score: +10 for found installation text, +10 for found
usage text. -/
def docScore (docs : Docs) : ℚ :=
  (if docs.installation ≠ "Installation instructions not found" then 10 else 0)
    + (if docs.usage ≠ "Usage instructions not found" then 10 else 0)

/-- `name_desc`: lower-cased name plus description. -/
def nameDesc (repo : Repo) : String :=
  pyLower (repo.name ++ " " ++ repo.description.getD "")

/-- `docs_text`: lower-cased installation plus usage text. -/
def docsText (docs : Docs) : String :=
  pyLower (docs.installation ++ " " ++ docs.usage)

/-- `api_indicators` of `score_tool`. -/
def apiIndicators : List String :=
  ["api", "sdk", "client", "wrapper", "official",
   "endpoint", "request", "response", "restful", "rest api", "library"]

/-- `package_indicators` of `score_tool`. -/
def packageIndicators : List String :=
  ["pip install", "python -m pip", "setup.py", "pypi",
   "requirements", "import", "from", "package"]

/-- `auth_patterns` of `score_tool`. -/
def authPatterns : List String :=
  ["api_key", "api key", "apikey", "api-key", "token",
   "authentication", "auth", "credentials", "secret", "bearer"]

/-- `data_quality_patterns` of `score_tool`. -/
def dataQualityPatterns : List String :=
  ["real-time", "realtime", "live", "current", "latest",
   "accurate", "reliable", "official", "verified", "up-to-date"]

/-- `doc_quality_indicators` of `score_tool`. -/
def docQualityIndicators : List String :=
  ["example", "usage", "quick start", "getting started",
   "response format", "parameters", "tutorial", "guide"]

/-- Quality bonus as a natural number: the individually capped indicator
buckets, with the sum clamped at 20. -/
def qualityBonusNat (repo : Repo) (docs : Docs) : ℕ :=
  let nd := nameDesc repo
  let dt := docsText docs
  let apiCount := apiIndicators.countP
    (fun ind => strContains nd ind || strContains dt ind)
  let packageCount := packageIndicators.countP (fun ind => strContains dt ind)
  let authBonus := if authPatterns.any (fun p => strContains dt p) then 3 else 0
  let dataBonus := if dataQualityPatterns.any (fun p => strContains dt p) then 3 else 0
  let docIndCount := docQualityIndicators.countP (fun ind => strContains dt ind)
  min 20 (min 8 (apiCount * 2) + min 3 packageCount + authBonus + dataBonus
    + min 3 docIndCount)

/-- Quality heuristics score (0-20). -/
def qualityBonus (repo : Repo) (docs : Docs) : ℚ :=
  (qualityBonusNat repo docs : ℚ)

/-- Relevance as a natural number: +5 per query keyword found in the
name/description, +3 per step sharing a query keyword, capped at 20.
The keyword list comes from `search_keyword.lower().split()` and is
traversed as a list (duplicates count twice, as in the source). -/
def relevanceScoreNat (repo : Repo) (search_keyword : String)
    (steps : List String) : ℕ :=
  let kws := splitWsStr (pyLower search_keyword)
  let nd := nameDesc repo
  min 20 (5 * kws.countP (fun kw => strContains nd kw)
    + 3 * steps.countP (fun step => kws.any (fun kw => strContains (pyLower step) kw)))

/-- Relevance score (0-20). -/
def relevanceScore (repo : Repo) (search_keyword : String)
    (steps : List String) : ℚ :=
  (relevanceScoreNat repo search_keyword steps : ℚ)

/-- Freshness step function of the repository age in days; missing or
unparsable timestamps score 0. -/
def freshnessScoreNat (repo : Repo) : ℕ :=
  match repo.daysOld with
  | none => 0
  | some d =>
    if d < 30 then 20
    else if d < 90 then 15
    else if d < 180 then 10
    else if d < 365 then 5
    else 0

/-- Freshness score (0-20). -/
def freshnessScore (repo : Repo) : ℚ :=
  (freshnessScoreNat repo : ℚ)

/-- `score_tool(repo, docs, question, steps, search_keyword)`
(tool_searching.py, lines 234-362): hard language gate, then the sum of
the five capped components. Returns the score and the effective
language, as the source does. -/
def score_tool (repo : Repo) (docs : Docs) (question : String)
    (steps : List String) (search_keyword : String) : ℚ × String :=
  let language := repoLanguage repo
  if language ≠ "python" then (0, language)
  else
    (starScore repo + docScore docs + qualityBonus repo docs
      + relevanceScore repo search_keyword steps + freshnessScore repo, language)

/-- C1: the hard language gate: any candidate whose implementation
language is not Python scores exactly 0, regardless of every other
input. -/
theorem score_tool_language_gate (repo : Repo) (docs : Docs) (question : String)
    (steps : List String) (search_keyword : String)
    (h : repoLanguage repo ≠ "python") :
    (score_tool repo docs question steps search_keyword).1 = 0 := by
  simp only [score_tool, if_pos h]

/-- Witness for C1: a 100000-star JavaScript repository with rich
documentation still scores 0. -/
theorem score_tool_language_gate_inst :
    (score_tool ⟨7, "superlib", "org/superlib", some "the best api client",
        some "JavaScript", 100000, "u", "hu", some 1⟩
      ⟨"pip install superlib", "usage example guide"⟩ "q" ["fetch data"] "api").1 = 0 :=
  score_tool_language_gate _ _ _ _ _ (by decide)

/-- Bounds for the star score. -/
lemma starScore_bounds (repo : Repo) : 0 ≤ starScore repo ∧ starScore repo ≤ 20 :=
  ⟨le_min (by norm_num) (by positivity), min_le_left _ _⟩

/-- Bounds for the documentation score. -/
lemma docScore_bounds (docs : Docs) : 0 ≤ docScore docs ∧ docScore docs ≤ 20 := by
  unfold docScore
  split_ifs <;> norm_num

/-- Bounds for the quality bonus. -/
lemma qualityBonus_bounds (repo : Repo) (docs : Docs) :
    0 ≤ qualityBonus repo docs ∧ qualityBonus repo docs ≤ 20 := by
  refine ⟨Nat.cast_nonneg _, ?_⟩
  have h : qualityBonusNat repo docs ≤ 20 := Nat.min_le_left _ _
  unfold qualityBonus
  exact_mod_cast h

/-- Bounds for the relevance score. -/
lemma relevanceScore_bounds (repo : Repo) (search_keyword : String)
    (steps : List String) :
    0 ≤ relevanceScore repo search_keyword steps
      ∧ relevanceScore repo search_keyword steps ≤ 20 := by
  refine ⟨Nat.cast_nonneg _, ?_⟩
  have h : relevanceScoreNat repo search_keyword steps ≤ 20 := Nat.min_le_left _ _
  unfold relevanceScore
  exact_mod_cast h

/-- Bounds for the freshness score. -/
lemma freshnessScore_bounds (repo : Repo) :
    0 ≤ freshnessScore repo ∧ freshnessScore repo ≤ 20 := by
  refine ⟨Nat.cast_nonneg _, ?_⟩
  have h : freshnessScoreNat repo ≤ 20 := by
    unfold freshnessScoreNat
    cases repo.daysOld with
    | none => norm_num
    | some d =>
      dsimp only
      split_ifs <;> norm_num
  unfold freshnessScore
  exact_mod_cast h

/-- C8: `score_tool` always returns a total in [0, 100]; each of the
five components is individually bounded in [0, 20]; and the total is
either the gate value 0 or exactly the sum of the five components. -/
theorem score_tool_bounds (repo : Repo) (docs : Docs) (question : String)
    (steps : List String) (search_keyword : String) :
    0 ≤ (score_tool repo docs question steps search_keyword).1
      ∧ (score_tool repo docs question steps search_keyword).1 ≤ 100
      ∧ (0 ≤ starScore repo ∧ starScore repo ≤ 20)
      ∧ (0 ≤ docScore docs ∧ docScore docs ≤ 20)
      ∧ (0 ≤ qualityBonus repo docs ∧ qualityBonus repo docs ≤ 20)
      ∧ (0 ≤ relevanceScore repo search_keyword steps
          ∧ relevanceScore repo search_keyword steps ≤ 20)
      ∧ (0 ≤ freshnessScore repo ∧ freshnessScore repo ≤ 20)
      ∧ ((score_tool repo docs question steps search_keyword).1 = 0
          ∨ (score_tool repo docs question steps search_keyword).1
            = starScore repo + docScore docs + qualityBonus repo docs
              + relevanceScore repo search_keyword steps + freshnessScore repo) := by
  obtain ⟨s1, s2⟩ := starScore_bounds repo
  obtain ⟨d1, d2⟩ := docScore_bounds docs
  obtain ⟨q1, q2⟩ := qualityBonus_bounds repo docs
  obtain ⟨r1, r2⟩ := relevanceScore_bounds repo search_keyword steps
  obtain ⟨f1, f2⟩ := freshnessScore_bounds repo
  simp only [score_tool]
  split_ifs with h
  · exact ⟨le_refl 0, by norm_num, ⟨s1, s2⟩, ⟨d1, d2⟩, ⟨q1, q2⟩, ⟨r1, r2⟩,
      ⟨f1, f2⟩, Or.inl rfl⟩
  · exact ⟨by dsimp only; linarith, by dsimp only; linarith, ⟨s1, s2⟩, ⟨d1, d2⟩,
      ⟨q1, q2⟩, ⟨r1, r2⟩, ⟨f1, f2⟩, Or.inr rfl⟩

/-! ### `find_best_tools_with_exclusion` (tool_searching.py, lines 511-636) -/

/-- The outcome of one search-strategy HTTP call: a 200 response with a
repository page, a rate-limit stop (403 with no remaining quota, which
breaks the strategy loop), a non-200 response (skipped), or a network
exception (skipped). -/
inductive SearchResp where
  | ok (repos : List Repo)
  | rateLimited
  | httpError
  | netError
deriving DecidableEq

/-- Add one strategy's repositories to the accumulator: skip candidates
whose name is excluded, then deduplicate by repository id (a falsy id,
modelled as 0, is also skipped, as `if repo_id and ...` does). -/
def addRepos (excluded : Finset String) :
    List Repo → List Repo × Finset ℕ → List Repo × Finset ℕ
  | [], st => st
  | r :: rs, (acc, seen) =>
    if r.name ∈ excluded then addRepos excluded rs (acc, seen)
    else if r.id ≠ 0 ∧ r.id ∉ seen then
      addRepos excluded rs (acc ++ [r], insert r.id seen)
    else addRepos excluded rs (acc, seen)

/-- The strategy loop: accumulate unique, non-excluded repositories
across the strategy responses, stopping early on rate limiting or once
`3 * max_tools` candidates have been collected. -/
def collectRepos (excluded : Finset String) (max_tools : ℕ) :
    List SearchResp → List Repo × Finset ℕ → List Repo
  | [], (acc, _) => acc
  | resp :: rest, (acc, seen) =>
    match resp with
    | .rateLimited => acc
    | .httpError => collectRepos excluded max_tools rest (acc, seen)
    | .netError => collectRepos excluded max_tools rest (acc, seen)
    | .ok repos =>
      let st := addRepos excluded repos (acc, seen)
      if max_tools * 3 ≤ st.1.length then st.1
      else collectRepos excluded max_tools rest st

/-- The candidate dictionary built for each positively scored
repository. -/
structure ToolInfo where
  name : String
  description : String
  language : String
  stars : ℕ
  url : String
  score : ℚ
  installation : String
  usage : String
deriving DecidableEq

/-- Build the `tool_info` dictionary of the source from a repository,
its fetched docs, and its score. -/
def mkToolInfo (repo : Repo) (docs : Docs) (score : ℚ) (language : String) :
    ToolInfo where
  name := repo.name
  description := repo.description.getD "No description available"
  language := if language = "" then "Unknown" else language
  stars := repo.stargazers_count
  url := repo.html_url
  score := score
  installation := docs.installation
  usage := docs.usage

/-- Score the first 20 collected repositories, dropping those with fewer
than 5 stars and those whose score is not positive. `docsOf` is the
external README fetcher, keyed by the repository API URL. -/
def scoredTools (docsOf : String → Docs) (question : String)
    (steps : List String) (search_keyword : String)
    (repos : List Repo) : List ToolInfo :=
  ((repos.take 20).filter (fun r => 5 ≤ r.stargazers_count)).filterMap fun repo =>
    let docs := docsOf repo.url
    let sl := score_tool repo docs question steps search_keyword
    if 0 < sl.1 then some (mkToolInfo repo docs sl.1 sl.2) else none

/-- Stable insertion into a list sorted by descending score (the new
element goes after existing elements of equal score). -/
def insertDesc (t : ToolInfo) : List ToolInfo → List ToolInfo
  | [] => [t]
  | u :: us => if u.score < t.score then t :: u :: us else u :: insertDesc t us

/-- Stable sort by descending score
(`scored_tools.sort(key=..., reverse=True)`). -/
def sortDesc : List ToolInfo → List ToolInfo
  | [] => []
  | t :: ts => insertDesc t (sortDesc ts)

/-- `find_best_tools_with_exclusion(question, steps, search_keyword,
excluded_tools, max_tools)` over the strategy responses of one search
session: collect, score, sort descending, return the top
`max_tools`. -/
def find_best_tools_with_exclusion (docsOf : String → Docs)
    (responses : List SearchResp) (question : String) (steps : List String)
    (search_keyword : String) (excluded_tools : Finset String)
    (max_tools : ℕ) : List ToolInfo :=
  let collected := collectRepos excluded_tools max_tools responses ([], ∅)
  (sortDesc (scoredTools docsOf question steps search_keyword collected)).take
    max_tools

/-- Every repository accumulated by `addRepos` was already accumulated
or has a non-excluded name. -/
lemma addRepos_names (excluded : Finset String) :
    ∀ (rs : List Repo) (acc : List Repo) (seen : Finset ℕ),
      ∀ r ∈ (addRepos excluded rs (acc, seen)).1, r ∈ acc ∨ r.name ∉ excluded := by
  intro rs
  induction rs with
  | nil => intro acc seen r hr; exact Or.inl hr
  | cons p ps ih =>
    intro acc seen r hr
    rw [addRepos] at hr
    by_cases h1 : p.name ∈ excluded
    · rw [if_pos h1] at hr
      exact ih acc seen r hr
    · rw [if_neg h1] at hr
      by_cases h2 : p.id ≠ 0 ∧ p.id ∉ seen
      · rw [if_pos h2] at hr
        rcases ih _ _ r hr with hacc | hname
        · rcases List.mem_append.mp hacc with hacc | hp
          · exact Or.inl hacc
          · have : r = p := List.mem_singleton.mp hp
            exact Or.inr (this ▸ h1)
        · exact Or.inr hname
      · rw [if_neg h2] at hr
        exact ih acc seen r hr

/-- Every repository collected by the strategy loop was already
accumulated or has a non-excluded name. -/
lemma collectRepos_names (excluded : Finset String) (m : ℕ) :
    ∀ (resps : List SearchResp) (acc : List Repo) (seen : Finset ℕ),
      ∀ r ∈ collectRepos excluded m resps (acc, seen), r ∈ acc ∨ r.name ∉ excluded := by
  intro resps
  induction resps with
  | nil => intro acc seen r hr; exact Or.inl hr
  | cons resp rest ih =>
    intro acc seen r hr
    cases resp with
    | rateLimited => rw [collectRepos] at hr; exact Or.inl hr
    | httpError => rw [collectRepos] at hr; exact ih acc seen r hr
    | netError => rw [collectRepos] at hr; exact ih acc seen r hr
    | ok repos =>
      rw [collectRepos] at hr
      by_cases h : m * 3 ≤ (addRepos excluded repos (acc, seen)).1.length
      · rw [if_pos h] at hr
        exact addRepos_names excluded repos acc seen r hr
      · rw [if_neg h] at hr
        rcases ih _ _ r ((Prod.mk.eta (p := addRepos excluded repos (acc, seen))) ▸ hr)
          with hacc | hname
        · exact addRepos_names excluded repos acc seen r hacc
        · exact Or.inr hname

/-- Membership is preserved by descending insertion. -/
lemma mem_insertDesc (t u : ToolInfo) :
    ∀ l : List ToolInfo, u ∈ insertDesc t l → u = t ∨ u ∈ l := by
  intro l
  induction l with
  | nil => intro h; exact Or.inl (List.mem_singleton.mp h)
  | cons v vs ih =>
    intro h
    rw [insertDesc] at h
    by_cases hc : v.score < t.score
    · rw [if_pos hc] at h
      rcases List.mem_cons.mp h with rfl | h
      · exact Or.inl rfl
      · exact Or.inr h
    · rw [if_neg hc] at h
      rcases List.mem_cons.mp h with rfl | h
      · exact Or.inr (List.mem_cons_self ..)
      · rcases ih h with rfl | h
        · exact Or.inl rfl
        · exact Or.inr (List.mem_cons_of_mem _ h)

/-- Membership is preserved by the descending sort. -/
lemma mem_sortDesc (u : ToolInfo) :
    ∀ l : List ToolInfo, u ∈ sortDesc l → u ∈ l := by
  intro l
  induction l with
  | nil => intro h; exact absurd h (List.not_mem_nil u)
  | cons v vs ih =>
    intro h
    rw [sortDesc] at h
    rcases mem_insertDesc v u (sortDesc vs) h with rfl | h
    · exact List.mem_cons_self ..
    · exact List.mem_cons_of_mem _ (ih h)

/-- Each returned candidate stems from a collected repository with at
least 5 stars, a positive score, and the same name and star count. -/
lemma mem_find_best (docsOf : String → Docs) (responses : List SearchResp)
    (question : String) (steps : List String) (search_keyword : String)
    (excluded_tools : Finset String) (max_tools : ℕ) (t : ToolInfo)
    (ht : t ∈ find_best_tools_with_exclusion docsOf responses question steps
      search_keyword excluded_tools max_tools) :
    ∃ repo ∈ collectRepos excluded_tools max_tools responses ([], ∅),
      t.name = repo.name ∧ t.stars = repo.stargazers_count
        ∧ 5 ≤ repo.stargazers_count := by
  have h1 : t ∈ sortDesc (scoredTools docsOf question steps search_keyword
      (collectRepos excluded_tools max_tools responses ([], ∅))) :=
    List.mem_of_mem_take ht
  have h2 := mem_sortDesc t _ h1
  obtain ⟨repo, hrepo, heq⟩ := List.mem_filterMap.mp h2
  have hmem : repo ∈ (collectRepos excluded_tools max_tools responses
      ([], ∅)).take 20 ∧ 5 ≤ repo.stargazers_count := by
    have := List.mem_filter.mp hrepo
    exact ⟨this.1, by simpa using this.2⟩
  refine ⟨repo, List.mem_of_mem_take hmem.1, ?_, ?_, hmem.2⟩ <;>
  · dsimp only at heq
    split_ifs at heq with hpos
    · cases heq
      rfl

/-- C5: `find_best_tools_with_exclusion` never returns a candidate whose
name is in the supplied exclusion set; consequently, when round 2 runs
with an exclusion set grown by every name shown in round 1, its results
are disjoint from round 1's shown set. -/
theorem exclusion_respected (docsOf : String → Docs) (responses : List SearchResp)
    (question : String) (steps : List String) (search_keyword : String)
    (excluded_tools : Finset String) (max_tools : ℕ) :
    ∀ t ∈ find_best_tools_with_exclusion docsOf responses question steps
        search_keyword excluded_tools max_tools,
      t.name ∉ excluded_tools := by
  intro t ht
  obtain ⟨repo, hmem, hname, -, -⟩ := mem_find_best docsOf responses question
    steps search_keyword excluded_tools max_tools t ht
  rcases collectRepos_names excluded_tools max_tools responses [] ∅ repo hmem with
    habs | hout
  · exact absurd habs (List.not_mem_nil repo)
  · exact hname ▸ hout

/-- C10: every candidate returned by `find_best_tools_with_exclusion`
has at least 5 stars: repositories below the star floor are dropped
before scoring and never presented. -/
theorem star_floor (docsOf : String → Docs) (responses : List SearchResp)
    (question : String) (steps : List String) (search_keyword : String)
    (excluded_tools : Finset String) (max_tools : ℕ) :
    ∀ t ∈ find_best_tools_with_exclusion docsOf responses question steps
        search_keyword excluded_tools max_tools,
      5 ≤ t.stars := by
  intro t ht
  obtain ⟨repo, -, -, hstars, hfloor⟩ := mem_find_best docsOf responses question
    steps search_keyword excluded_tools max_tools t ht
  exact hstars ▸ hfloor

/-- A concrete Python repository at the 5-star floor. -/
def alphaRepo : Repo := ⟨1, "alpha", "org/alpha", none, some "Python", 5, "u", "hu", none⟩

/-- Concrete README fetch result: both sections missing. -/
def sentinelDocs : Docs :=
  ⟨"Installation instructions not found", "Usage instructions not found"⟩

/-- The candidate that the concrete discovery session returns. -/
def alphaInfo : ToolInfo :=
  ⟨"alpha", "No description available", "python", 5, "hu", 51 / 50,
    "Installation instructions not found", "Usage instructions not found"⟩

/-- Witness for C5: in a concrete session excluding "other", the
returned candidate's name is not in the exclusion set. -/
theorem exclusion_respected_inst : alphaInfo.name ∉ ({"other"} : Finset String) :=
  exclusion_respected (fun _ => sentinelDocs) [.ok [alphaRepo]] "q" [] "x"
    {"other"} 3 alphaInfo (by decide)

/-- Witness for C10: the candidate returned by the concrete session has
at least 5 stars. -/
theorem star_floor_inst : 5 ≤ alphaInfo.stars :=
  star_floor (fun _ => sentinelDocs) [.ok [alphaRepo]] "q" [] "x"
    {"other"} 3 alphaInfo (by decide)

/-! ### The tool repository (tools_managing.py, lines 9-31 and 320-363,
495-544) -/

/-- `sanitize_tool_name`: keep word characters, whitespace and hyphens;
collapse hyphen/whitespace runs to single underscores. -/
def sanitizeKeep (c : Char) : Bool := isWordChar c || c.isWhitespace || decide (c = '-')

/-- A hyphen or whitespace character. -/
def isDashSpace (c : Char) : Bool := decide (c = '-') || c.isWhitespace

/-- `re.sub(r'[-\s]+', '_', s)`: collapse each hyphen/whitespace run to
one underscore. -/
def collapseDashSpace : List Char → List Char
  | [] => []
  | [c] => if isDashSpace c then ['_'] else [c]
  | a :: b :: rest =>
    if isDashSpace a && isDashSpace b then collapseDashSpace (b :: rest)
    else (if isDashSpace a then '_' else a) :: collapseDashSpace (b :: rest)

/-- Python `str.strip('-_')`. -/
def stripDashUnderscore (l : List Char) : List Char :=
  ((l.dropWhile (fun c => c = '-' || c = '_')).reverse.dropWhile
    (fun c => c = '-' || c = '_')).reverse

/-- `sanitize_tool_name(tool_name)` (tools_managing.py, lines 9-17). -/
def sanitize_tool_name (s : String) : String :=
  pyLower (List.asString
    (stripDashUnderscore (collapseDashSpace (s.data.filter sanitizeKeep))))

/-- `generate_tool_id(tool_name)` (tools_managing.py, lines 19-31); the
timestamp is an external clock input. -/
def generate_tool_id (name : String) (ts : ℕ) : String :=
  sanitize_tool_name name ++ "_" ++ toString ts

/-- The `tools` directory as an association list from file base name
(the file is `tools/<key>.json`) to the parsed record, in directory
order. -/
abbrev FileStore : Type := List (String × ToolData)

/-- Write a file: overwrite in place when the name exists, else append. -/
def storeWrite (k : String) (v : ToolData) : FileStore → FileStore
  | [] => [(k, v)]
  | (k', v') :: rest =>
    if k' = k then (k, v) :: rest else (k', v') :: storeWrite k v rest

/-- Read the file with base name `k`, if present. -/
def storeRead (k : String) : FileStore → Option ToolData
  | [] => none
  | (k', v') :: rest => if k' = k then some v' else storeRead k rest

/-- `save_tool_as_json(tool_name, tool_description, keywords,
install_dependencies, python_code)` (tools_managing.py, lines 320-363):
allocate the id from the sanitized name and the clock, write the JSON
record, return the id and the updated store. -/
def save_tool_as_json (fs : FileStore) (tool_name tool_description keywords : String)
    (install_dependencies : List String) (python_code : String) (ts : ℕ) :
    String × FileStore :=
  let tool_id := generate_tool_id tool_name ts
  (tool_id, storeWrite tool_id
    ⟨tool_id, tool_description, keywords, install_dependencies, python_code,
      ts, tool_name⟩ fs)

/-- `load_tool_by_id(tool_id)` (tools_managing.py, lines 526-544). -/
def load_tool_by_id (fs : FileStore) (tool_id : String) : Option ToolData :=
  storeRead tool_id fs

/-- The summary dictionary `list_available_tools_v2` builds per file. -/
structure ToolSummary where
  id : String
  name : String
  description : String
  keywords : String
  filename : String
deriving DecidableEq

/-- `list_available_tools_v2()` (tools_managing.py, lines 495-524). -/
def list_available_tools_v2 (fs : FileStore) : List ToolSummary :=
  fs.map fun p =>
    ⟨p.2.id, p.2.original_name, p.2.tool_description, p.2.keywords,
      p.1 ++ ".json"⟩

/-- Reading back the file just written. -/
lemma storeRead_write (k : String) (v : ToolData) :
    ∀ fs : List (String × ToolData), storeRead k (storeWrite k v fs) = some v := by
  intro fs
  induction fs with
  | nil => simp [storeWrite, storeRead]
  | cons p rest ih =>
    obtain ⟨k', v'⟩ := p
    by_cases h : k' = k
    · simp [storeWrite, storeRead, h]
    · simp [storeWrite, storeRead, h, ih]

/-- After writing a well-formed store (each record's `id` field equals
its file base name, no duplicate file names), exactly one record carries
the new id. -/
lemma storeWrite_count (k : String) (v : ToolData) (hv : v.id = k) :
    ∀ fs : List (String × ToolData),
      (∀ p ∈ fs, (p.2).id = p.1) → (fs.map Prod.fst).Nodup →
      ((storeWrite k v fs).countP (fun p => (p.2).id = k)) = 1 := by
  intro fs
  induction fs with
  | nil =>
    intro _ _
    simp [storeWrite, List.countP_cons, hv]
  | cons p rest ih =>
    obtain ⟨k', v'⟩ := p
    intro hwf hnd
    have hwf' : ∀ q ∈ rest, (q.2).id = q.1 := fun q hq =>
      hwf q (List.mem_cons_of_mem _ hq)
    have hnd' : (rest.map Prod.fst).Nodup := (List.nodup_cons.mp hnd).2
    by_cases h : k' = k
    · rw [storeWrite, if_pos h]
      have hknot : k' ∉ rest.map Prod.fst := (List.nodup_cons.mp hnd).1
      have hzero : rest.countP (fun p => (p.2).id = k) = 0 := by
        rw [List.countP_eq_zero]
        intro q hq
        have hqid : (q.2).id = q.1 := hwf' q hq
        have hq1 : q.1 ≠ k := by
          intro habs
          have hmem : q.1 ∈ rest.map Prod.fst := List.mem_map_of_mem Prod.fst hq
          rw [habs, ← h] at hmem
          exact hknot hmem
        simpa [hqid] using hq1
      simp [List.countP_cons, hv, hzero]
    · rw [storeWrite, if_neg h]
      have hv'id : (v').id = k' := hwf (k', v') (List.mem_cons_self ..)
      have : ¬ ((v').id = k) := by rw [hv'id]; exact h
      simp [List.countP_cons, this, ih hwf' hnd']

/-- C6: persistence round trip: after `save_tool_as_json` on a
well-formed store, `load_tool_by_id` on the returned id yields a record
whose description, keyword string, install-command list and code equal
the inputs given to save, and `list_available_tools_v2` contains that id
exactly once. -/
theorem save_load_roundtrip (fs : FileStore) (tool_name tool_description keywords : String)
    (install_dependencies : List String) (python_code : String) (ts : ℕ)
    (hwf : ∀ p ∈ fs, (p.2).id = p.1) (hnd : (fs.map Prod.fst).Nodup) :
    load_tool_by_id
        (save_tool_as_json fs tool_name tool_description keywords
          install_dependencies python_code ts).2
        (save_tool_as_json fs tool_name tool_description keywords
          install_dependencies python_code ts).1
      = some ⟨generate_tool_id tool_name ts, tool_description, keywords,
          install_dependencies, python_code, ts, tool_name⟩
      ∧ ((list_available_tools_v2
          (save_tool_as_json fs tool_name tool_description keywords
            install_dependencies python_code ts).2).countP
        (fun s => s.id = (save_tool_as_json fs tool_name tool_description keywords
          install_dependencies python_code ts).1)) = 1 := by
  constructor
  · exact storeRead_write _ _ fs
  · have hcount := storeWrite_count (generate_tool_id tool_name ts)
      ⟨generate_tool_id tool_name ts, tool_description, keywords,
        install_dependencies, python_code, ts, tool_name⟩ rfl fs hwf hnd
    simpa [list_available_tools_v2, save_tool_as_json, List.countP_map,
      Function.comp] using hcount

/-- Witness for C6: saving "My Tool" into a well-formed one-file store
and loading it back returns exactly the saved fields, and the listing
carries the new id once. -/
theorem save_load_roundtrip_inst :
    load_tool_by_id
        (save_tool_as_json [("old_1", ⟨"old_1", "d", "k", [], "c", 1, "old"⟩)]
          "My Tool" "fetches things" "fetch things" ["pip install x"] "code" 42).2
        (save_tool_as_json [("old_1", ⟨"old_1", "d", "k", [], "c", 1, "old"⟩)]
          "My Tool" "fetches things" "fetch things" ["pip install x"] "code" 42).1
      = some ⟨"my_tool_42", "fetches things", "fetch things",
          ["pip install x"], "code", 42, "My Tool"⟩
      ∧ ((list_available_tools_v2
          (save_tool_as_json [("old_1", ⟨"old_1", "d", "k", [], "c", 1, "old"⟩)]
            "My Tool" "fetches things" "fetch things" ["pip install x"] "code" 42).2).countP
        (fun s => s.id
          = (save_tool_as_json [("old_1", ⟨"old_1", "d", "k", [], "c", 1, "old"⟩)]
            "My Tool" "fetches things" "fetch things" ["pip install x"] "code" 42).1)) = 1 := by
  have h := save_load_roundtrip
    [("old_1", ⟨"old_1", "d", "k", [], "c", 1, "old"⟩)]
    "My Tool" "fetches things" "fetch things" ["pip install x"] "code" 42
    (by decide) (by decide)
  have hid : generate_tool_id "My Tool" 42 = "my_tool_42" := by decide
  exact ⟨by rw [h.1, hid], h.2⟩

/-! ### The tool-acquisition loop (manager.py, lines 262-352 and 354-466)

The interactive loop is embedded as a function of the finite trace of
user inputs. One `Choice.select idx approve` event merges the selection
prompt with the installation-approval prompt that follows a valid
selection; `Choice.invalid` is a non-numeric or out-of-range entry,
which the source re-prompts on. When the trace runs out the CLI would
block waiting for input, modelled by the `blocked` outcome. -/

/-- One user input at the selection prompt. -/
inductive Choice where
  | cancel
  | searchAgain
  | select (idx : ℕ) (approve : Bool)
  | invalid
deriving DecidableEq

/-- One invocation of `save_tool_as_json` with its arguments (the clock
argument is supplied when replaying against a store). -/
structure SaveEvent where
  tool_name : String
  tool_description : String
  keywords : String
  install_dependencies : List String
  python_code : String
deriving DecidableEq

/-- Terminal outcome of `_create_and_execute_new_tool_v2`, one
constructor per `return` of the source. -/
inductive Outcome where
  | blocked
  | noTools
  | cancelled
  | exhausted
  | installFailed (msg : String)
  | codegenFailed
  | execFailed
  | executed (name : String)
deriving DecidableEq

/-- The user-visible message of each terminal outcome, as returned by
the source. -/
def outcomeMessage : Outcome → String
  | .blocked => ""
  | .noTools => "❌ Could not find any suitable tools for this task."
  | .cancelled => "Tool installation cancelled."
  | .exhausted => "❌ Maximum search attempts reached. Could not find a suitable tool."
  | .installFailed msg => "Failed to install dependencies: " ++ msg
  | .codegenFailed => "Failed to generate valid code."
  | .execFailed => "Failed to execute new tool: Script execution failed"
  | .executed name =>
    "New tool " ++ name ++ " created and executed successfully. Output captured."

/-- The external collaborators of the acquisition loop: per-session
search responses (indexed by search invocation), the README fetcher, the
LLM-backed command generator and cleaner, the shell installer, the
LLM-backed code generator and validator (`none` models rejected or
empty code), the LLM-backed description and keyword generators, and the
executor's exit status. -/
structure Env where
  raw : ℕ → List SearchResp
  docsOf : String → Docs
  genInstallCmds : String → List String
  installResult : String → Bool × String
  genCode : String → Option String
  genDesc : String → String
  genKeywords : String → String
  execOk : Bool

/-- Run the install commands in order; return the error output of the
first failing command, if any. -/
def firstFailedInstall (env : Env) : List String → Option String
  | [] => none
  | cmd :: rest =>
    if (env.installResult cmd).1 then firstFailedInstall env rest
    else some (env.installResult cmd).2

/-- `_install_and_execute_tool_v2(tool_info, install_cmds, ...)`
(manager.py, lines 354-466): install, generate and validate code,
generate description and keywords, save the tool, execute it. The
returned list collects the `save_tool_as_json` invocations of the run
(the save happens before execution, so even a failing execution keeps
the saved tool). -/
def installAndExecute (env : Env) (tool : ToolInfo) (cmds : List String) :
    Outcome × List SaveEvent :=
  match firstFailedInstall env cmds with
  | some out => (.installFailed out, [])
  | none =>
    match env.genCode tool.usage with
    | none => (.codegenFailed, [])
    | some code =>
      let desc := env.genDesc code
      let kws := env.genKeywords code
      let ev : SaveEvent := ⟨tool.name, desc, kws, cmds, code⟩
      if env.execOk then (.executed tool.name, [ev]) else (.execFailed, [ev])

/-- Result of a run of the acquisition loop: the terminal outcome, the
save invocations performed, and the final value of the source's
`current_attempt` counter. -/
structure LoopResult where
  outcome : Outcome
  saves : List SaveEvent
  attempts : ℕ
deriving DecidableEq

/-- The selection loop of `_create_and_execute_new_tool_v2` from the
state where `opts` (nonempty) has just been presented, `attempt` rounds
have been consumed by "search again", `sIdx` searches have been issued
and `tried` holds the excluded names. Each transition back to the
searching state performs the next search inline, mirroring the source's
`while current_attempt < max_search_attempts` loop. -/
def presentLoop (env : Env) (q : String) (st : List String) (kw : String) :
    ℕ → ℕ → Finset String → List ToolInfo → List Choice → LoopResult
  | attempt, _, _, _, [] => ⟨.blocked, [], attempt⟩
  | attempt, _, _, _, Choice.cancel :: _ => ⟨.cancelled, [], attempt⟩
  | attempt, sIdx, tried, opts, Choice.searchAgain :: rest =>
    let tried2 := tried ∪ (opts.map (fun t => t.name)).toFinset
    if 3 ≤ attempt + 1 then ⟨.exhausted, [], attempt + 1⟩
    else
      match find_best_tools_with_exclusion env.docsOf (env.raw sIdx) q st kw
          tried2 3 with
      | [] => ⟨.noTools, [], attempt + 1⟩
      | o :: os => presentLoop env q st kw (attempt + 1) (sIdx + 1) tried2
          (o :: os) rest
  | attempt, sIdx, tried, opts, Choice.select i approve :: rest =>
    if h : i < opts.length then
      let tool := opts.get ⟨i, h⟩
      if approve then
        let r := installAndExecute env tool (env.genInstallCmds tool.installation)
        ⟨r.1, r.2, attempt⟩
      else
        let tried2 := insert tool.name tried
        match find_best_tools_with_exclusion env.docsOf (env.raw sIdx) q st kw
            tried2 3 with
        | [] => ⟨.noTools, [], attempt⟩
        | o :: os => presentLoop env q st kw attempt (sIdx + 1) tried2
            (o :: os) rest
    else presentLoop env q st kw attempt sIdx tried opts rest
  | attempt, sIdx, tried, opts, Choice.invalid :: rest =>
    presentLoop env q st kw attempt sIdx tried opts rest

/-- `_create_and_execute_new_tool_v2(user_input, steps, required_tool,
...)` (manager.py, lines 262-352): the initial search with an empty
exclusion set, then the interactive selection loop over the user's
input trace. -/
def createAndExecuteNewTool (env : Env) (q : String) (st : List String)
    (kw : String) (trace : List Choice) : LoopResult :=
  match find_best_tools_with_exclusion env.docsOf (env.raw 0) q st kw ∅ 3 with
  | [] => ⟨.noTools, [], 0⟩
  | o :: os => presentLoop env q st kw 0 1 ∅ (o :: os) trace

/-- The install-and-execute path never reports cancellation or round
exhaustion. -/
lemma installAndExecute_outcome (env : Env) (tool : ToolInfo) (cmds : List String) :
    (installAndExecute env tool cmds).1 ≠ Outcome.cancelled
      ∧ (installAndExecute env tool cmds).1 ≠ Outcome.exhausted := by
  unfold installAndExecute
  rcases firstFailedInstall env cmds with _ | out
  · rcases env.genCode tool.usage with _ | code
    · simp
    · dsimp only
      split_ifs <;> simp
  · simp

/-- Attempt-counter invariant of the selection loop: starting below the
bound, the final counter never exceeds 3, never decreases, and equals 3
exactly on the exhaustion outcome. -/
lemma presentLoop_attempts (env : Env) (q : String) (st : List String) (kw : String) :
    ∀ (trace : List Choice) (attempt sIdx : ℕ) (tried : Finset String)
      (opts : List ToolInfo), attempt < 3 →
      attempt ≤ (presentLoop env q st kw attempt sIdx tried opts trace).attempts
        ∧ (presentLoop env q st kw attempt sIdx tried opts trace).attempts ≤ 3
        ∧ ((presentLoop env q st kw attempt sIdx tried opts trace).outcome
              = Outcome.exhausted
            ↔ (presentLoop env q st kw attempt sIdx tried opts trace).attempts = 3) := by
  intro trace
  induction trace with
  | nil =>
    intro attempt sIdx tried opts h
    rw [presentLoop]
    refine ⟨le_refl _, le_of_lt h, ?_⟩
    show Outcome.blocked = Outcome.exhausted ↔ attempt = 3
    exact ⟨(fun habs => nomatch habs), fun habs => absurd habs (by omega)⟩
  | cons c rest ih =>
    intro attempt sIdx tried opts h
    cases c with
    | cancel =>
      rw [presentLoop]
      refine ⟨le_refl _, le_of_lt h, ?_⟩
      show Outcome.cancelled = Outcome.exhausted ↔ attempt = 3
      exact ⟨(fun habs => nomatch habs), fun habs => absurd habs (by omega)⟩
    | searchAgain =>
      rw [presentLoop]
      by_cases hb : 3 ≤ attempt + 1
      · rw [if_pos hb]
        refine ⟨Nat.le_succ _, show attempt + 1 ≤ 3 by omega, ?_⟩
        show Outcome.exhausted = Outcome.exhausted ↔ attempt + 1 = 3
        exact ⟨fun _ => by omega, fun _ => rfl⟩
      · rw [if_neg hb]
        rcases hfind : find_best_tools_with_exclusion env.docsOf (env.raw sIdx) q
            st kw (tried ∪ (opts.map (fun t => t.name)).toFinset) 3 with _ | ⟨o, os⟩
        · rw [hfind]
          refine ⟨Nat.le_succ _, show attempt + 1 ≤ 3 by omega, ?_⟩
          show Outcome.noTools = Outcome.exhausted ↔ attempt + 1 = 3
          exact ⟨(fun habs => nomatch habs), fun habs => absurd habs (by omega)⟩
        · rw [hfind]
          have h' : attempt + 1 < 3 := lt_of_not_le hb
          obtain ⟨i1, i2, i3⟩ := ih (attempt + 1) (sIdx + 1)
            (tried ∪ (opts.map (fun t => t.name)).toFinset) (o :: os) h'
          exact ⟨le_trans (Nat.le_succ _) i1, i2, i3⟩
    | select i approve =>
      rw [presentLoop]
      by_cases hlt : i < opts.length
      · rw [dif_pos hlt]
        cases approve with
        | true =>
          obtain ⟨h1, h2⟩ := installAndExecute_outcome env (opts.get ⟨i, hlt⟩)
            (env.genInstallCmds (opts.get ⟨i, hlt⟩).installation)
          refine ⟨le_refl _, le_of_lt h, ?_⟩
          constructor
          · intro habs; exact absurd habs h2
          · intro habs
            exact absurd (show attempt = 3 from habs) (by omega)
        | false =>
          dsimp only
          rcases hfind : find_best_tools_with_exclusion env.docsOf (env.raw sIdx) q
              st kw (insert (opts.get ⟨i, hlt⟩).name tried) 3 with _ | ⟨o, os⟩
          · refine ⟨le_refl _, le_of_lt h, ?_⟩
            show Outcome.noTools = Outcome.exhausted ↔ attempt = 3
            exact ⟨(fun habs => nomatch habs), fun habs => absurd habs (by omega)⟩
          · exact ih attempt (sIdx + 1) (insert (opts.get ⟨i, hlt⟩).name tried)
              (o :: os) h
      · rw [dif_neg hlt]
        exact ih attempt sIdx tried opts h
    | invalid =>
      rw [presentLoop]
      exact ih attempt sIdx tried opts h

/-- C4: the acquisition loop is a total function of the user's input
trace (it can neither raise nor loop forever); its round counter never
exceeds the fixed maximum of 3; and it reports the exhaustion failure
message exactly when the user's "search again" choices drove the
counter to 3 — the third "search again" terminates the loop with the
exhaustion result. -/
theorem acquisition_round_bound (env : Env) (q : String) (st : List String)
    (kw : String) (trace : List Choice) :
    (createAndExecuteNewTool env q st kw trace).attempts ≤ 3
      ∧ ((createAndExecuteNewTool env q st kw trace).outcome = Outcome.exhausted
          ↔ (createAndExecuteNewTool env q st kw trace).attempts = 3)
      ∧ ((createAndExecuteNewTool env q st kw trace).outcome = Outcome.exhausted →
          outcomeMessage (createAndExecuteNewTool env q st kw trace).outcome
            = "❌ Maximum search attempts reached. Could not find a suitable tool.") := by
  unfold createAndExecuteNewTool
  rcases find_best_tools_with_exclusion env.docsOf (env.raw 0) q st kw ∅ 3 with
    _ | ⟨o, os⟩
  · exact ⟨by norm_num, by simp, by intro habs; rw [habs]; rfl⟩
  · obtain ⟨h1, h2, h3⟩ := presentLoop_attempts env q st kw trace 0 1 ∅ (o :: os)
      (by norm_num)
    exact ⟨h2, h3, by intro habs; rw [habs]; rfl⟩

/-- A Python repository distinct per search round. -/
def roundRepo (n : ℕ) : Repo :=
  ⟨n + 1, "r" ++ toString n, "org/r", none, some "Python", 5, "u", "hu", none⟩

/-- An environment whose every search round yields one fresh
candidate. -/
def roundEnv : Env where
  raw := fun n => [.ok [roundRepo n]]
  docsOf := fun _ => sentinelDocs
  genInstallCmds := fun _ => []
  installResult := fun _ => (true, "")
  genCode := fun _ => some "code"
  genDesc := fun _ => "a tool"
  genKeywords := fun _ => "tool"
  execOk := true

/-- Witness for C4: with fresh candidates each round, three "search
again" choices drive the counter to exactly 3 and the loop ends with
the exhaustion outcome. -/
theorem acquisition_round_bound_inst :
    (createAndExecuteNewTool roundEnv "q" [] "x"
        [Choice.searchAgain, Choice.searchAgain, Choice.searchAgain]).attempts ≤ 3
      ∧ (createAndExecuteNewTool roundEnv "q" [] "x"
          [Choice.searchAgain, Choice.searchAgain, Choice.searchAgain]).outcome
        = Outcome.exhausted :=
  ⟨(acquisition_round_bound roundEnv "q" [] "x"
      [Choice.searchAgain, Choice.searchAgain, Choice.searchAgain]).1,
    ((acquisition_round_bound roundEnv "q" [] "x"
      [Choice.searchAgain, Choice.searchAgain, Choice.searchAgain]).2.1).mpr
      (by decide)⟩

/-- Replay a list of save invocations against a store at a given clock
reading. -/
def replaySaves (ts : ℕ) (fs : FileStore) (evs : List SaveEvent) : FileStore :=
  evs.foldl
    (fun s e => (save_tool_as_json s e.tool_name e.tool_description e.keywords
      e.install_dependencies e.python_code ts).2) fs

/-- The selection loop performs no save on any run that ends in
cancellation or exhaustion. -/
lemma presentLoop_saves (env : Env) (q : String) (st : List String) (kw : String) :
    ∀ (trace : List Choice) (attempt sIdx : ℕ) (tried : Finset String)
      (opts : List ToolInfo),
      ((presentLoop env q st kw attempt sIdx tried opts trace).outcome
            = Outcome.cancelled
          ∨ (presentLoop env q st kw attempt sIdx tried opts trace).outcome
            = Outcome.exhausted) →
      (presentLoop env q st kw attempt sIdx tried opts trace).saves = [] := by
  intro trace
  induction trace with
  | nil => intro attempt sIdx tried opts _; rw [presentLoop]
  | cons c rest ih =>
    intro attempt sIdx tried opts hout
    cases c with
    | cancel => rw [presentLoop]
    | searchAgain =>
      rw [presentLoop] at hout ⊢
      by_cases hb : 3 ≤ attempt + 1
      · rw [if_pos hb]
      · rw [if_neg hb] at hout ⊢
        rcases hfind : find_best_tools_with_exclusion env.docsOf (env.raw sIdx) q
            st kw (tried ∪ (opts.map (fun t => t.name)).toFinset) 3 with _ | ⟨o, os⟩
        · rw [hfind]
        · rw [hfind] at hout ⊢
          exact ih (attempt + 1) (sIdx + 1) _ (o :: os) hout
    | select i approve =>
      rw [presentLoop] at hout ⊢
      by_cases hlt : i < opts.length
      · rw [dif_pos hlt] at hout ⊢
        cases approve with
        | true =>
          dsimp only at hout
          obtain ⟨h1, h2⟩ := installAndExecute_outcome env (opts.get ⟨i, hlt⟩)
            (env.genInstallCmds (opts.get ⟨i, hlt⟩).installation)
          rcases hout with habs | habs
          · exact absurd habs h1
          · exact absurd habs h2
        | false =>
          dsimp only at hout ⊢
          revert hout
          cases hfind : find_best_tools_with_exclusion env.docsOf (env.raw sIdx) q
              st kw (insert (opts.get ⟨i, hlt⟩).name tried) 3 with
          | nil => intro _; rfl
          | cons o os =>
            intro hout
            exact ih attempt (sIdx + 1) (insert (opts.get ⟨i, hlt⟩).name tried)
              (o :: os) hout
      · rw [dif_neg hlt] at hout ⊢
        exact ih attempt sIdx tried opts hout
    | invalid =>
      rw [presentLoop] at hout ⊢
      exact ih attempt sIdx tried opts hout

/-- C7: an acquisition session that ends in user cancellation or in
round exhaustion performs no `save_tool_as_json` call, so replaying the
session against any tool store leaves the store — and hence
`list_available_tools_v2` — unchanged. -/
theorem failed_acquisition_frame (env : Env) (q : String) (st : List String)
    (kw : String) (trace : List Choice)
    (h : (createAndExecuteNewTool env q st kw trace).outcome = Outcome.cancelled
      ∨ (createAndExecuteNewTool env q st kw trace).outcome = Outcome.exhausted) :
    (createAndExecuteNewTool env q st kw trace).saves = []
      ∧ ∀ (ts : ℕ) (fs : FileStore),
        replaySaves ts fs (createAndExecuteNewTool env q st kw trace).saves = fs := by
  have hsaves : (createAndExecuteNewTool env q st kw trace).saves = [] := by
    unfold createAndExecuteNewTool at h ⊢
    rcases hfind : find_best_tools_with_exclusion env.docsOf (env.raw 0) q st kw
        ∅ 3 with _ | ⟨o, os⟩
    · rfl
    · rw [hfind] at h
      exact presentLoop_saves env q st kw trace 0 1 ∅ (o :: os) h
  exact ⟨hsaves, fun ts fs => by rw [hsaves]; rfl⟩

/-- A concrete environment for the acquisition-loop witness. -/
def simpleEnv : Env where
  raw := fun _ => [.ok [alphaRepo]]
  docsOf := fun _ => sentinelDocs
  genInstallCmds := fun _ => []
  installResult := fun _ => (true, "")
  genCode := fun _ => some "code"
  genDesc := fun _ => "a tool"
  genKeywords := fun _ => "tool"
  execOk := true

/-- Witness for C7: a session that finds a candidate and is cancelled by
the user saves nothing and leaves every store unchanged. -/
theorem failed_acquisition_frame_inst :
    (createAndExecuteNewTool simpleEnv "q" [] "x" [Choice.cancel]).saves = []
      ∧ ∀ (ts : ℕ) (fs : FileStore),
        replaySaves ts fs
          (createAndExecuteNewTool simpleEnv "q" [] "x" [Choice.cancel]).saves = fs :=
  failed_acquisition_frame simpleEnv "q" [] "x" [Choice.cancel] (Or.inl (by decide))

/-! ### Structural properties of `extract_keywords` -/

/-- Runs produced by `runsAcc` are nonempty and consist of characters
satisfying the run predicate. -/
lemma runsAcc_sound (p : Char → Bool) :
    ∀ (l acc : List Char), (∀ c ∈ acc, p c = true) →
      ∀ r ∈ runsAcc p l acc, r ≠ [] ∧ ∀ c ∈ r, p c = true := by
  intro l
  induction l with
  | nil =>
    intro acc hacc r hr
    rw [runsAcc] at hr
    by_cases he : acc.isEmpty
    · rw [if_pos he] at hr
      exact absurd hr (List.not_mem_nil r)
    · rw [if_neg he] at hr
      have hr' : r = acc.reverse := List.mem_singleton.mp hr
      subst hr'
      refine ⟨?_, fun c hc => hacc c (List.mem_reverse.mp hc)⟩
      intro habs
      exact he (by simp [List.isEmpty_iff, ← List.reverse_eq_nil_iff, habs])
  | cons a as ih =>
    intro acc hacc r hr
    rw [runsAcc] at hr
    by_cases hp : p a
    · rw [if_pos hp] at hr
      refine ih (a :: acc) ?_ r hr
      intro c hc
      rcases List.mem_cons.mp hc with rfl | hc
      · exact hp
      · exact hacc c hc
    · rw [if_neg hp] at hr
      by_cases he : acc.isEmpty
      · rw [if_pos he] at hr
        exact ih [] (by simp) r hr
      · rw [if_neg he] at hr
        rcases List.mem_cons.mp hr with rfl | hr
        · refine ⟨?_, fun c hc => hacc c (List.mem_reverse.mp hc)⟩
          intro habs
          exact he (by simp [List.isEmpty_iff, ← List.reverse_eq_nil_iff, habs])
        · exact ih [] (by simp) r hr

/-- Characters of a run come from the scanned list or the accumulator. -/
lemma runsAcc_chars (p : Char → Bool) :
    ∀ (l acc : List Char), ∀ r ∈ runsAcc p l acc, ∀ c ∈ r, c ∈ l ∨ c ∈ acc := by
  intro l
  induction l with
  | nil =>
    intro acc r hr c hc
    rw [runsAcc] at hr
    by_cases he : acc.isEmpty
    · rw [if_pos he] at hr
      exact absurd hr (List.not_mem_nil r)
    · rw [if_neg he] at hr
      have hr' : r = acc.reverse := List.mem_singleton.mp hr
      subst hr'
      exact Or.inr (List.mem_reverse.mp hc)
  | cons a as ih =>
    intro acc r hr c hc
    rw [runsAcc] at hr
    by_cases hp : p a
    · rw [if_pos hp] at hr
      rcases ih (a :: acc) r hr c hc with h | h
      · exact Or.inl (List.mem_cons_of_mem a h)
      · rcases List.mem_cons.mp h with rfl | h
        · exact Or.inl (List.mem_cons_self ..)
        · exact Or.inr h
    · rw [if_neg hp] at hr
      by_cases he : acc.isEmpty
      · rw [if_pos he] at hr
        rcases ih [] r hr c hc with h | h
        · exact Or.inl (List.mem_cons_of_mem a h)
        · exact absurd h (List.not_mem_nil c)
      · rw [if_neg he] at hr
        rcases List.mem_cons.mp hr with rfl | hr
        · exact Or.inr (List.mem_reverse.mp hc)
        · rcases ih [] r hr c hc with h | h
          · exact Or.inl (List.mem_cons_of_mem a h)
          · exact absurd h (List.not_mem_nil c)

/-- Characters survive the camel-case split up to inserted spaces. -/
lemma camelSplitChars_chars :
    ∀ l : List Char, ∀ c ∈ camelSplitChars l, c ∈ l ∨ c = ' ' := by
  intro l
  induction l with
  | nil => intro c hc; rw [camelSplitChars] at hc; exact absurd hc (List.not_mem_nil c)
  | cons a t ih =>
    cases t with
    | nil =>
      intro c hc
      rw [camelSplitChars] at hc
      exact Or.inl hc
    | cons b rest =>
      intro c hc
      rw [camelSplitChars] at hc
      by_cases hcond : (decide (97 ≤ a.toNat) && decide (a.toNat ≤ 122))
          && (decide (65 ≤ b.toNat) && decide (b.toNat ≤ 90))
      · rw [if_pos hcond] at hc
        rcases List.mem_cons.mp hc with rfl | hc
        · exact Or.inl (List.mem_cons_self ..)
        · rcases List.mem_cons.mp hc with rfl | hc
          · exact Or.inr rfl
          · rcases ih c hc with h | h
            · exact Or.inl (List.mem_cons_of_mem a h)
            · exact Or.inr h
      · rw [if_neg hcond] at hc
        rcases List.mem_cons.mp hc with rfl | hc
        · exact Or.inl (List.mem_cons_self ..)
        · rcases ih c hc with h | h
          · exact Or.inl (List.mem_cons_of_mem a h)
          · exact Or.inr h

/-- Characters of the normalised text come from the input text or are
spaces. -/
lemma pyTransform_chars (text : String) :
    ∀ c ∈ pyTransform text, c ∈ text.data ∨ c = ' ' := by
  intro c hc
  rcases camelSplitChars_chars _ c hc with h | h
  · obtain ⟨d, hd, heq⟩ := List.mem_map.mp h
    by_cases hund : d = '_'
    · exact Or.inr (by rw [← heq, hund]; rfl)
    · refine Or.inl ?_
      rw [← heq]
      simpa [hund] using hd
  · exact Or.inr h

/-- Lower-casing does not change a character that is not an ASCII
letter. -/
lemma lowerChar_of_not_alpha (c : Char) (h : isAsciiAlpha c = false) :
    lowerChar c = c := by
  rw [lowerChar, if_neg]
  intro habs
  simp only [isAsciiAlpha, Bool.or_eq_false_iff, Bool.and_eq_false_iff] at h
  rcases h.1 with h1 | h1 <;> simp at h1 <;> omega

/-- An ASCII letter is not a CJK character. -/
lemma isAsciiAlpha_not_cjk (c : Char) (h : isAsciiAlpha c = true) :
    isCJK c = false := by
  simp only [isAsciiAlpha, Bool.or_eq_true, Bool.and_eq_true, decide_eq_true_eq] at h
  simp only [isCJK, Bool.and_eq_false_iff, decide_eq_false_iff_not]
  left
  omega

/-- A prefix test implies character containment. -/
lemma leadsWith_subset :
    ∀ (needle hay : List Char), leadsWith needle hay = true → ∀ c ∈ needle, c ∈ hay := by
  intro needle
  induction needle with
  | nil => intro hay _ c hc; exact absurd hc (List.not_mem_nil c)
  | cons a as ih =>
    intro hay h c hc
    cases hay with
    | nil => exact absurd h (by rw [leadsWith]; simp)
    | cons b bs =>
      rw [leadsWith, Bool.and_eq_true, decide_eq_true_eq] at h
      rcases List.mem_cons.mp hc with rfl | hc
      · exact h.1 ▸ List.mem_cons_self ..
      · exact List.mem_cons_of_mem b (ih bs h.2 c hc)

/-- Substring containment implies character containment. -/
lemma hasSub_subset :
    ∀ (hay needle : List Char), hasSub hay needle = true → ∀ c ∈ needle, c ∈ hay := by
  intro hay
  induction hay with
  | nil =>
    intro needle h c hc
    rw [hasSub, List.isEmpty_iff] at h
    subst h
    exact absurd hc (List.not_mem_nil c)
  | cons b bs ih =>
    intro needle h c hc
    rw [hasSub, Bool.or_eq_true] at h
    rcases h with h | h
    · exact leadsWith_subset needle (b :: bs) h c hc
    · exact List.mem_cons_of_mem b (ih needle h c hc)

/-- The Latin tokens injected by the Chinese anchor-expansion table of
`extract_keywords` (every one is at least 3 characters long, but some —
"get", "fetch", "retrieve", "check", "value" — are stop words). -/
def chineseInjectedLatin : List String :=
  ["weather", "temperature", "forecast", "stock", "price", "market",
   "cost", "value", "check", "query", "search", "get", "fetch", "retrieve",
   "beijing", "shanghai", "apple", "aapl", "company", "corporation"]

/-- C9 counterexample: `extract_keywords` applied to the Chinese text
"获取" returns a set containing "get", which is one of the function's
own general-purpose stop words — the Chinese anchor expansion injects
stop words, so the extracted set is not stop-word-free. -/
theorem extract_keywords_stopword_cex :
    "get" ∈ extract_keywords "获取" ∧ "get" ∈ allStopWords := by
  exact ⟨by decide, by decide⟩

/-- The underlying character list of `List.asString`. -/
lemma asString_data (l : List Char) : (List.asString l).data = l := rfl

/-- A failed `List.contains` test on strings refutes membership. -/
lemma stringList_contains_false {l : List String} {a : String}
    (h : l.contains a = false) : a ∉ l := by
  intro hmem
  have htrue : l.contains a = true := List.elem_iff.mpr hmem
  rw [h] at htrue
  cases htrue

/-- Every token injected by the Chinese anchor table is all-CJK or a
Latin token of length at least 3 from the injected list. -/
lemma chineseAnchorTable_tokens :
    ∀ e ∈ chineseAnchorTable, ∀ w ∈ e.2,
      (∀ c ∈ w.data, isCJK c = true)
        ∨ (3 ≤ w.length ∧ (w ∉ allStopWords ∨ w ∈ chineseInjectedLatin)) := by
  decide

/-- Every domain term of the three guarded term sets has at least 3
characters. -/
lemma domainTerms_long :
    ∀ t ∈ weatherTerms ++ financeTerms ++ apiTerms, 3 ≤ t.length := by decide

/-- Every location and company name has at least 3 characters and is
not a stop word. -/
lemma locations_companies_ok :
    ∀ t ∈ commonLocations ++ techCompanies, 3 ≤ t.length ∧ t ∉ allStopWords := by
  decide

/-- Every domain term, location and company name contains an ASCII
letter. -/
lemma domainTerms_alpha :
    ∀ t ∈ weatherTerms ++ financeTerms ++ apiTerms ++ commonLocations
        ++ techCompanies,
      ∃ c ∈ t.data, isAsciiAlpha c = true := by decide

/-- C9 (amended): every token returned by `extract_keywords` is either a
pure CJK token, or a Latin-bearing token of length at least 3 that is
not a stop word unless it is one of the fixed tokens injected by the
Chinese anchor-expansion table; in particular no Latin token shorter
than 3 characters ever appears. Moreover the function is total (never
raises) and returns the empty set on text containing no ASCII letters
and no CJK characters. (The unamended "no stop word" claim fails on the
injected tokens, see the counterexample.) -/
theorem extract_keywords_amended (text : String) :
    (∀ w ∈ extract_keywords text,
      (∀ c ∈ w.data, isCJK c = true)
        ∨ (3 ≤ w.length ∧ (w ∉ allStopWords ∨ w ∈ chineseInjectedLatin)))
      ∧ ((∀ c ∈ text.data, isAsciiAlpha c = false ∧ isCJK c = false) →
          extract_keywords text = ∅) := by
  constructor
  · intro w hw
    rw [extract_keywords, List.mem_toFinset, List.mem_filter] at hw
    obtain ⟨hmem, -⟩ := hw
    rcases List.mem_append.mp hmem with hmem2 | hchin
    · rcases List.mem_append.mp hmem2 with heng | hdom
      · rw [filteredEnglishWords, List.mem_filter] at heng
        obtain ⟨heng, hpred⟩ := heng
        simp only [Bool.and_eq_true, Bool.not_eq_true', Bool.or_eq_true,
          decide_eq_true_eq] at hpred
        obtain ⟨⟨hstop, hlen⟩, -⟩ := hpred
        rw [englishWords, List.mem_map] at heng
        obtain ⟨r, hr, rfl⟩ := heng
        rw [List.mem_filter] at hr
        obtain ⟨hrun, halpha⟩ := hr
        obtain ⟨hne, -⟩ := runsAcc_sound isWordChar _ [] (by simp) r hrun
        obtain ⟨c, cs, rfl⟩ := List.exists_cons_of_ne_nil hne
        have hc : isAsciiAlpha c = true :=
          List.all_eq_true.mp halpha c (List.mem_cons_self ..)
        right
        have hnostop : List.asString (c :: cs) ∉ allStopWords :=
          stringList_contains_false hstop
        refine ⟨?_, Or.inl hnostop⟩
        rcases hlen with hlen | hcjk
        · exact hlen
        · exfalso
          rw [startsCJK, asString_data] at hcjk
          have hc' : isCJK c = true := hcjk
          rw [isAsciiAlpha_not_cjk c hc] at hc'
          cases hc'
      · simp only [domainKeywordList, List.mem_append] at hdom
        rcases hdom with (hterm | hloc) | hcomp
        · rw [List.mem_filter] at hterm
          obtain ⟨htmem, htpred⟩ := hterm
          simp only [Bool.and_eq_true, Bool.not_eq_true'] at htpred
          exact Or.inr ⟨domainTerms_long w htmem,
            Or.inl (stringList_contains_false htpred.2)⟩
        · rw [List.mem_filter] at hloc
          have h := locations_companies_ok w
            (List.mem_append.mpr (Or.inl hloc.1))
          exact Or.inr ⟨h.1, Or.inl h.2⟩
        · rw [List.mem_filter] at hcomp
          have h := locations_companies_ok w
            (List.mem_append.mpr (Or.inr hcomp.1))
          exact Or.inr ⟨h.1, Or.inl h.2⟩
    · rw [chineseKeywordList, List.mem_flatMap] at hchin
      obtain ⟨run, hrunmem, hw⟩ := hchin
      rcases List.mem_cons.mp hw with rfl | hadds
      · left
        rw [chineseRuns, List.mem_map] at hrunmem
        obtain ⟨rl, hrl, rfl⟩ := hrunmem
        obtain ⟨-, hall⟩ := runsAcc_sound isCJK _ [] (by simp) rl hrl
        exact hall
      · rw [chineseAdds, List.mem_flatMap] at hadds
        obtain ⟨e, he, hwe⟩ := hadds
        exact chineseAnchorTable_tokens e (List.mem_of_mem_filter he) w hwe
  · intro hno
    have halphaLow : ∀ c ∈ (pyTransform text).map lowerChar,
        isAsciiAlpha c = false := by
      intro c hc
      obtain ⟨d, hd, rfl⟩ := List.mem_map.mp hc
      rcases pyTransform_chars text d hd with hd' | rfl
      · have hdalpha := (hno d hd').1
        rw [lowerChar_of_not_alpha d hdalpha]
        exact hdalpha
      · rw [lowerChar_of_not_alpha ' ' (by decide)]
        decide
    have heng : filteredEnglishWords text = [] := by
      rw [List.eq_nil_iff_forall_not_mem]
      intro w hw
      rw [filteredEnglishWords, List.mem_filter] at hw
      obtain ⟨hw, -⟩ := hw
      rw [englishWords, List.mem_map] at hw
      obtain ⟨r, hr, -⟩ := hw
      rw [List.mem_filter] at hr
      obtain ⟨hrun, hall⟩ := hr
      obtain ⟨hne, -⟩ := runsAcc_sound isWordChar _ [] (by simp) r hrun
      obtain ⟨c, cs, rfl⟩ := List.exists_cons_of_ne_nil hne
      have hc : isAsciiAlpha c = true :=
        List.all_eq_true.mp hall c (List.mem_cons_self ..)
      rcases runsAcc_chars isWordChar _ [] _ hrun c (List.mem_cons_self ..) with
        hmem | habs
      · rw [halphaLow c hmem] at hc
        cases hc
      · exact absurd habs (List.not_mem_nil c)
    have hdomlist : domainKeywordList text = [] := by
      rw [List.eq_nil_iff_forall_not_mem]
      intro w hw
      simp only [domainKeywordList, List.mem_append] at hw
      have hsub : strContains (List.asString ((pyTransform text).map lowerChar)) w
            = true →
          False := by
        intro hcontain
        obtain ⟨c, hcw, hcalpha⟩ := by
          refine domainTerms_alpha w ?_
          rcases hw with (h | h) | h
          · have := (List.mem_filter.mp h).1
            simp only [List.append_assoc, List.mem_append] at this ⊢
            tauto
          · have := (List.mem_filter.mp h).1
            simp only [List.append_assoc, List.mem_append] at this ⊢
            tauto
          · have := (List.mem_filter.mp h).1
            simp only [List.append_assoc, List.mem_append] at this ⊢
            tauto
        have hcmem := hasSub_subset _ _ hcontain c hcw
        rw [halphaLow c hcmem] at hcalpha
        cases hcalpha
      rcases hw with (h | h) | h
      · have := (List.mem_filter.mp h).2
        simp only [Bool.and_eq_true] at this
        exact hsub this.1
      · exact hsub (List.mem_filter.mp h).2
      · exact hsub (List.mem_filter.mp h).2
    have hchinruns : chineseRuns text = [] := by
      rw [List.eq_nil_iff_forall_not_mem]
      intro w hw
      rw [chineseRuns, List.mem_map] at hw
      obtain ⟨rl, hrl, -⟩ := hw
      obtain ⟨hne, hall⟩ := runsAcc_sound isCJK _ [] (by simp) rl hrl
      obtain ⟨c, cs, rfl⟩ := List.exists_cons_of_ne_nil hne
      have hc : isCJK c = true := hall c (List.mem_cons_self ..)
      rcases runsAcc_chars isCJK _ [] _ hrl c (List.mem_cons_self ..) with
        hmem | habs
      · rcases pyTransform_chars text c hmem with hmem' | rfl
        · rw [(hno c hmem').2] at hc
          cases hc
        · cases hc
      · exact absurd habs (List.not_mem_nil c)
    have hchin : chineseKeywordList text = [] := by
      rw [chineseKeywordList, hchinruns]
      rfl
    rw [extract_keywords, heng, hdomlist, hchin]
    rfl

/-- Witness for C9 (amended): the injected token "get" of the text
"获取" satisfies the amended shape, and a purely numeric/punctuation
text extracts to the empty set. -/
theorem extract_keywords_amended_inst :
    ((∀ c ∈ "get".data, isCJK c = true)
        ∨ (3 ≤ "get".length ∧ ("get" ∉ allStopWords ∨ "get" ∈ chineseInjectedLatin)))
      ∧ extract_keywords "123!!!" = ∅ :=
  ⟨(extract_keywords_amended "获取").1 "get" (by decide),
    (extract_keywords_amended "123!!!").2 (by decide)⟩

end Alita
